import Mathlib

/-!
Verification of the estate-radar-worker ingestion pipeline.

The development shallowly embeds the JavaScript sources:
 - `Esn`  : the cheerio-based scraper variant of `sources/estatesalesnet.js`
   (the second document in that file: `parseDateRange`, `isHomeLocation`,
   `cityFromAddress`, `buildDirections`, `parseList`, and the
   title+address de-duplication filter inside `searchEstateSalesNet`).
 - `Sync` : the per-item upsert worker (`upsertSale` and the main batch
   loop of the index.js variant that counts inserts/updates/errors).
 - `Lite` : the dependency-light scraper variant (its `normalize` title
   defaulting and the address-splitting block of `parseListings`).

JavaScript strings are Lean `String`s; `null`/`undefined` becomes
`Option`; timestamps produced by the date parser are modelled as local
calendar times `(month, day, hour)` in the current (non-leap) year — the
code's `toISOString` is an order-preserving renaming of these values
(every pair of produced times is at least six hours apart, so the at
most one hour of UTC-offset variation cannot reorder them).
-/

namespace EstateRadar

/-- JavaScript whitespace test (the characters relevant to this source:
space, tab, newline, carriage return). -/
def isJsWs (c : Char) : Bool :=
  c = ' ' || c = '\t' || c = '\n' || c = '\r'

/-- `String.prototype.trim` on a character list: drop whitespace from
both ends. -/
def jsTrimChars (cs : List Char) : List Char :=
  ((cs.dropWhile isJsWs).reverse.dropWhile isJsWs).reverse

/-- `String.prototype.trim`. -/
def jsTrim (s : String) : String :=
  String.mk (jsTrimChars s.data)

/-- `raw.replace(/\s+/g, ' ')`: collapse each whitespace run to a single
space. -/
def collapseWs : List Char → List Char
  | [] => []
  | [c] => [if isJsWs c then ' ' else c]
  | c :: d :: t =>
    if isJsWs c && isJsWs d then collapseWs (d :: t)
    else (if isJsWs c then ' ' else c) :: collapseWs (d :: t)

/-- `String.prototype.split` on a character class: JavaScript split never
returns an empty array (splitting the empty string yields `[""]`). -/
def splitChars (p : Char → Bool) : List Char → List (List Char)
  | [] => [[]]
  | c :: t =>
    match splitChars p t with
    | [] => [[]]
    | h :: hs => if p c then [] :: h :: hs else (c :: h) :: hs

/-- `String.prototype.includes` restricted to a single character. -/
def hasChar (c : Char) (s : String) : Bool :=
  decide (c ∈ s.data)

/-- The needle list is a prefix of the haystack list. -/
def charsPrefixOf : List Char → List Char → Bool
  | [], _ => true
  | _ :: _, [] => false
  | a :: as, b :: bs => a = b && charsPrefixOf as bs

/-- The needle occurs somewhere in the haystack. -/
def charsOccurs (needle : List Char) : List Char → Bool
  | [] => needle.isEmpty
  | c :: t => charsPrefixOf needle (c :: t) || charsOccurs needle t

/-- `String.prototype.includes`: substring occurrence. -/
def includesSub (hay needle : String) : Bool :=
  charsOccurs needle.data hay.data

/-- `Array.prototype.join(", ")` over character lists. -/
def joinComma : List (List Char) → List Char
  | [] => []
  | [x] => x
  | x :: y :: t => x ++ (',' :: ' ' :: joinComma (y :: t))

namespace Esn

/-- A local calendar time in the current year, as produced by
`parseDateRange`: dayjs parses `Mon D` style dates to midnight of the
current year and the code then sets the hour to 9 or 15. -/
structure LocalTime where
  month : Nat
  day : Nat
  hour : Nat
deriving DecidableEq, Repr

/-- Days in the months preceding month `m` (non-leap year, matching the
current year 2025 that dayjs defaults to). -/
def daysBefore : Nat → Nat
  | 1 => 0
  | 2 => 31
  | 3 => 59
  | 4 => 90
  | 5 => 120
  | 6 => 151
  | 7 => 181
  | 8 => 212
  | 9 => 243
  | 10 => 273
  | 11 => 304
  | 12 => 334
  | _ => 0

/-- Day-of-year index of a `LocalTime`'s date. -/
def dateIdx (t : LocalTime) : Nat :=
  daysBefore t.month + t.day

/-- Minutes since the start of the year; the ISO timestamps the code
stores compare exactly as these values do (see the module comment). -/
def tsMinutes (t : LocalTime) : Nat :=
  dateIdx t * 1440 + t.hour * 60

/-- Length of month `m` in the current (non-leap) year; dayjs strict
parsing marks an out-of-range day-of-month invalid. -/
def monthLen (m : Nat) : Nat :=
  if m = 2 then 28
  else if m = 4 || m = 6 || m = 9 || m = 11 then 30
  else 31

/-- The `MMM` token of dayjs: English three-letter month names. -/
def monthNum (a b c : Char) : Option Nat :=
  let t := String.mk [a, b, c]
  if t = "Jan" then some 1
  else if t = "Feb" then some 2
  else if t = "Mar" then some 3
  else if t = "Apr" then some 4
  else if t = "May" then some 5
  else if t = "Jun" then some 6
  else if t = "Jul" then some 7
  else if t = "Aug" then some 8
  else if t = "Sep" then some 9
  else if t = "Oct" then some 10
  else if t = "Nov" then some 11
  else if t = "Dec" then some 12
  else none

/-- The `ddd` token of dayjs: English three-letter weekday names (the
weekday is matched but its value is ignored by the date computation). -/
def isDayName (a b c : Char) : Bool :=
  decide (String.mk [a, b, c] ∈ ["Sun", "Mon", "Tue", "Wed", "Thu", "Fri", "Sat"])

/-- Value of a decimal digit character, if it is one. -/
def digitVal (c : Char) : Option Nat :=
  if c.isDigit then some (c.toNat - 48) else none

/-- The `D` token of dayjs in strict mode: one or two digits and nothing
else. -/
def parseDayNum : List Char → Option Nat
  | [c] => digitVal c
  | [c1, c2] =>
    match digitVal c1, digitVal c2 with
    | some a, some b => some (a * 10 + b)
    | _, _ => none
  | _ => none

/-- Strict parse with format `MMM D`: month name, one space, day number,
whole input consumed, and the day in range for the month. -/
def parseMMMD (cs : List Char) : Option (Nat × Nat) :=
  match cs with
  | a :: b :: c :: ' ' :: rest =>
    match monthNum a b c with
    | some m =>
      match parseDayNum rest with
      | some d => if 1 ≤ d && d ≤ monthLen m then some (m, d) else none
      | none => none
    | none => none
  | _ => none

/-- Strict parse with format `ddd MMM D`. -/
def parseDDDMMMD (cs : List Char) : Option (Nat × Nat) :=
  match cs with
  | a :: b :: c :: ' ' :: rest =>
    if isDayName a b c then parseMMMD rest else none
  | _ => none

/-- `dayjs(s, ['ddd MMM D', 'MMM D'], true)`: try the formats in order,
first valid parse wins. -/
def parseDay (s : String) : Option (Nat × Nat) :=
  match parseDDDMMMD s.data with
  | some r => some r
  | none => parseMMMD s.data

/-- A dash of the split regex `/[–-]/` (en dash or hyphen). -/
def isDash (c : Char) : Bool :=
  c = '–' || c = '-'

/-- The `parts` computed by `parseDateRange`: collapse whitespace, trim,
split on dashes, trim each part. -/
def dateParts (raw : String) : List String :=
  ((splitChars isDash (jsTrimChars (collapseWs raw.data))).map
    (fun cs => String.mk (jsTrimChars cs)))

/-- The `{start_at, end_at}` pair returned by `parseDateRange`. -/
structure DateRange where
  start_at : Option LocalTime
  end_at : Option LocalTime
deriving DecidableEq, Repr

/-- `parseDateRange` (estatesalesnet.js, scraper variant): a single
parseable date becomes a 9:00–15:00 one-day event; with two or more
dash-separated parts the first two are parsed and mapped to 9:00 of the
first date and 15:00 of the second; anything else yields a null pair. -/
def parseDateRange (raw : String) : DateRange :=
  match dateParts raw with
  | [p] =>
    match parseDay p with
    | some (m, d) => ⟨some ⟨m, d, 9⟩, some ⟨m, d, 15⟩⟩
    | none => ⟨none, none⟩
  | p1 :: p2 :: _ =>
    match parseDay p1, parseDay p2 with
    | some (m1, d1), some (m2, d2) => ⟨some ⟨m1, d1, 9⟩, some ⟨m2, d2, 15⟩⟩
    | _, _ => ⟨none, none⟩
  | [] => ⟨none, none⟩

/-- The parsed-hours object `{generic: text}`. -/
structure Hours where
  generic : String
deriving DecidableEq, Repr

/-- Canonical listing shape pushed by `parseList` and consumed by the
worker's `upsertSale`. -/
structure Listing where
  title : String
  address : String
  city : Option String
  start_at : Option LocalTime
  end_at : Option LocalTime
  hours_json : Option Hours
  distance_mi : Option ℚ
  directions_url : Option String
  source : String
deriving DecidableEq, Repr

/-- `isHomeLocation`: lowercase the surrounding text blob and reject it
when any disallow-list keyword occurs as a substring; default allow. -/
def isHomeLocation (textBlob : String) : Bool :=
  let t := String.mk (textBlob.data.map Char.toLower)
  let bad := ["store hours", "retail store", "warehouse", "storage unit",
    "showroom", "consignment", "off-site", "off site", "by appointment only"]
  if bad.any (fun k => includesSub t k) then false else true

/-- `cityFromAddress`: split on commas and take the second-to-last piece,
trimmed; `null` when there are fewer than two pieces. -/
def cityFromAddress (addr : String) : Option String :=
  let parts := splitChars (fun c => c = ',') addr.data
  if parts.length ≥ 2 then
    some (String.mk (jsTrimChars (parts.get! (parts.length - 2))))
  else none

/-- UTF-8 bytes of one character (the code points the worker meets are
ASCII, but the encoding is total). -/
def utf8Bytes (c : Char) : List Nat :=
  let n := c.toNat
  if n < 128 then [n]
  else if n < 2048 then [192 + n / 64, 128 + n % 64]
  else if n < 65536 then [224 + n / 4096, 128 + (n / 64) % 64, 128 + n % 64]
  else [240 + n / 262144, 128 + (n / 4096) % 64, 128 + (n / 64) % 64, 128 + n % 64]

/-- Uppercase hexadecimal digit. -/
def hexDigit (n : Nat) : Char :=
  if n < 10 then Char.ofNat (48 + n) else Char.ofNat (55 + n)

/-- A character `encodeURIComponent` leaves unescaped. -/
def isUriUnreserved (c : Char) : Bool :=
  (('A' ≤ c && c ≤ 'Z') || ('a' ≤ c && c ≤ 'z') || ('0' ≤ c && c ≤ '9')) ||
    decide (c ∈ ['-', '_', '.', '!', '~', '*', Char.ofNat 39, '(', ')'])

/-- `encodeURIComponent`: percent-encode every reserved byte of the
UTF-8 encoding, uppercase hex. -/
def encodeURIComponent (s : String) : String :=
  String.mk ((s.data.map (fun c =>
    if isUriUnreserved c then [c]
    else (utf8Bytes c).map (fun b => ['%', hexDigit (b / 16), hexDigit (b % 16)])
      |>.flatten)).flatten)

/-- `buildDirections(homeBase, address)`. -/
def buildDirections (homeBase address : String) : String :=
  "https://www.google.com/maps/dir/" ++ encodeURIComponent homeBase ++ "/" ++
    encodeURIComponent address

/-- One selected card of the results page, with the texts the cheerio
selectors of `parseList` extract from it: title, address line, date
text, hours text, and the card's whole text blob.  The selection itself
is the markup I/O boundary; everything after it is embedded. -/
structure Card where
  title : String
  address : String
  whenTxt : String
  hoursTxt : String
  blob : String
deriving DecidableEq, Repr

/-- Keep `some s` only when `s` is non-empty (the JS `x || null` idiom on
an optional string value). -/
def optNonempty (o : Option String) : Option String :=
  match o with
  | some s => if s = "" then none else some s
  | none => none

/-- The per-card body of `parseList`: skip cards with no title or no
text, skip non-home locations, otherwise build the listing record —
with `distance_mi` the literal `null` of the source. -/
def parseCard (homeBase : String) (c : Card) : Option Listing :=
  if c.title = "" || c.blob = "" then none
  else if !isHomeLocation c.blob then none
  else
    some
      { title := c.title
        address := c.address
        city := optNonempty (cityFromAddress c.address)
        start_at := (parseDateRange c.whenTxt).start_at
        end_at := (parseDateRange c.whenTxt).end_at
        hours_json := if c.hoursTxt = "" then none else some ⟨c.hoursTxt⟩
        distance_mi := none
        directions_url :=
          if c.address = "" then none else some (buildDirections homeBase c.address)
        source := "estatesales.net" }

/-- `parseList` over the selected cards of one document. -/
def parseList (homeBase : String) (cards : List Card) : List Listing :=
  cards.filterMap (parseCard homeBase)

/-- The de-duplication key of `searchEstateSalesNet`:
`` `${r.title}|${r.address}` ``. -/
def dedupKey (l : Listing) : String :=
  l.title ++ "|" ++ l.address

/-- The seen-set filter of `searchEstateSalesNet`: keep a listing only
when its title|address key has not been seen before. -/
def dedupeAux : List Listing → List String → List Listing
  | [], _ => []
  | l :: t, seen =>
    if decide (dedupKey l ∈ seen) then dedupeAux t seen
    else l :: dedupeAux t (dedupKey l :: seen)

/-- The final de-duplication pass of `searchEstateSalesNet`
(lines 211–218). -/
def dedupeListings (ls : List Listing) : List Listing :=
  dedupeAux ls []

/-- The spec's NaturalKey for this source's listings: the scraper emits
no `sourceId` field at all, so the fallback tuple
`(title, address, startAt)` applies (the `sourceName` component is the
constant `"estatesales.net"`). -/
def naturalKey (l : Listing) : String × String × Option LocalTime :=
  (l.title, l.address, l.start_at)

end Esn

namespace Sync

/-- The title shape guard of `upsertSale`:
`item.title?.trim() || 'Untitled Estate Sale'`. -/
def normTitle (t : Option String) : String :=
  match t with
  | some s => if jsTrim s = "" then "Untitled Estate Sale" else jsTrim s
  | none => "Untitled Estate Sale"

/-- The payload built by `upsertSale`'s shape guard.  A timestamp or
hours object is always truthy, so `|| null` is the identity on those
fields; on optional strings it maps the empty string to null. -/
def payload (item : Esn.Listing) : Esn.Listing :=
  { title := normTitle (some item.title)
    address := item.address
    city := Esn.optNonempty item.city
    start_at := item.start_at
    end_at := item.end_at
    hours_json := item.hours_json
    distance_mi := item.distance_mi
    directions_url := Esn.optNonempty item.directions_url
    source := if item.source = "" then "estatesales.net" else item.source }

/-- A stored `sales` row: the payload columns plus the row id. -/
structure Row where
  id : Nat
  pay : Esn.Listing
deriving DecidableEq, Repr

/-- The persistent `sales` collection: rows in insertion order plus the
next identity value.  `limit(1)` row selection is modelled as the first
match in insertion order. -/
structure Store where
  rows : List Row
  next : Nat
deriving DecidableEq, Repr

/-- The empty store. -/
def emptyStore : Store := ⟨[], 0⟩

/-- The lookup filter of `upsertSale`: equal title and address, and
equal `start_at` only when the payload's `start_at` is set (the
`.eq('start_at', …)` clause is added only then). -/
def rowMatches (p : Esn.Listing) (r : Row) : Bool :=
  decide (r.pay.title = p.title ∧ r.pay.address = p.address ∧
    (p.start_at = none ∨ r.pay.start_at = p.start_at))

/-- Whether `upsertSale` inserted or updated. -/
inductive Action where
  | insert
  | update
deriving DecidableEq, Repr

/-- `upsertSale(item)`: build the payload, look up an existing row by
the natural-key filter, then either update that row (all payload
columns, id kept) or insert a fresh row. -/
def upsertSale (item : Esn.Listing) (st : Store) : Action × Store :=
  let p := payload item
  match st.rows.find? (rowMatches p) with
  | some r =>
    (Action.update,
      ⟨st.rows.map (fun x => if x.id = r.id then ⟨x.id, p⟩ else x), st.next⟩)
  | none => (Action.insert, ⟨st.rows ++ [⟨st.next, p⟩], st.next + 1⟩)

/-- Running counts and store of the worker's batch loop. -/
structure SyncRes where
  inserts : Nat
  updates : Nat
  store : Store
deriving DecidableEq, Repr

/-- The batch loop of `main` restricted to its success path: upsert each
item in order, counting inserts and updates. -/
def runSyncAux : List Esn.Listing → SyncRes → SyncRes
  | [], acc => acc
  | l :: t, acc =>
    match upsertSale l acc.store with
    | (Action.insert, st') => runSyncAux t ⟨acc.inserts + 1, acc.updates, st'⟩
    | (Action.update, st') => runSyncAux t ⟨acc.inserts, acc.updates + 1, st'⟩

/-- One synchronizer run over a deduplicated listing set. -/
def runSync (ls : List Esn.Listing) (st : Store) : SyncRes :=
  runSyncAux ls ⟨0, 0, st⟩

/-- Counts of the full batch loop including the error counter. -/
structure RunCounts where
  inserts : Nat
  updates : Nat
  errors : Nat
deriving DecidableEq, Repr

/-- The batch loop of `main` with per-item failure: a throwing
`upsertSale` call (modelled by the failure oracle `fails`) is caught,
`errors` is incremented, and the loop continues with the store
unchanged. -/
def mainLoop (fails : Esn.Listing → Bool) :
    List Esn.Listing → RunCounts → Store → RunCounts × Store
  | [], c, st => (c, st)
  | l :: t, c, st =>
    if fails l then mainLoop fails t ⟨c.inserts, c.updates, c.errors + 1⟩ st
    else
      match upsertSale l st with
      | (Action.insert, st') => mainLoop fails t ⟨c.inserts + 1, c.updates, c.errors⟩ st'
      | (Action.update, st') => mainLoop fails t ⟨c.inserts, c.updates + 1, c.errors⟩ st'

/-- The summary string `main` builds after the loop. -/
def summaryNote (total : Nat) (c : RunCounts) : String :=
  "done: " ++ toString total ++ " fetched, " ++ toString c.inserts ++
    " inserted, " ++ toString c.updates ++ " updated, " ++
    toString c.errors ++ " errors"

/-- The run-audit record written by `logRun`. -/
structure RunOutcome where
  status : String
  notes : String
deriving DecidableEq, Repr

/-- The audit record `main` writes after the batch loop:
`logRun('success', summary)` — the status literal does not depend on the
error count. -/
def mainReport (fails : Esn.Listing → Bool) (items : List Esn.Listing)
    (st : Store) : RunOutcome :=
  ⟨"success", summaryNote items.length (mainLoop fails items ⟨0, 0, 0⟩ st).1⟩

end Sync

namespace Lite

/-- The title defaulting of `normalize` in the dependency-light scraper:
`raw.title || 'Estate Sale'`.  Its input titles come from
`parseLightweight`, which pushes `cleanText(title)` — null or an
already-trimmed string. -/
def normalizeTitle (t : Option String) : String :=
  match t with
  | some s => if s = "" then "Estate Sale" else s
  | none => "Estate Sale"

/-- The two-letter class `[A-Za-z]` (the regex `[A-Z]{2}` under the `i`
flag). -/
def isAsciiLetter (c : Char) : Bool :=
  ('A' ≤ c && c ≤ 'Z') || ('a' ≤ c && c ≤ 'z')

/-- The tail of the regex after the whitespace that follows the comma:
`([A-Z]{2})\s*(\d{5})?` under the `i` flag — two ASCII letters matched
case-insensitively (stored uppercase), optional whitespace, and an
optional five-digit group. -/
def matchStateZip : List Char → Option (List Char × Option (List Char))
  | c1 :: c2 :: r4 =>
    if isAsciiLetter c1 && isAsciiLetter c2 then
      let digits := (r4.dropWhile isJsWs).take 5
      if digits.length = 5 && digits.all Char.isDigit then
        some ([c1.toUpper, c2.toUpper], some digits)
      else some ([c1.toUpper, c2.toUpper], none)
    else none
  | _ => none

/-- The regex from the comma on: a literal `,`, then `\s*`, then the
state/zip tail. -/
def matchAfterComma : List Char → Option (List Char × Option (List Char))
  | ',' :: r2 => matchStateZip (r2.dropWhile isJsWs)
  | _ => none

/-- The regex `/^([^,]+),\s*([A-Z]{2})\s*(\d{5})?/i` of `parseListings`:
a non-empty comma-free prefix captured as the city text, then the
comma/state/zip tail.  Returns the city text, the two letters
uppercased, and the optional digits. -/
def matchCsz (cs : List Char) : Option (List Char × List Char × Option (List Char)) :=
  let g1 := cs.takeWhile (fun c => c ≠ ',')
  if g1 = [] then none
  else (matchAfterComma (cs.dropWhile (fun c => c ≠ ','))).map
    (fun p => (g1, p.1, p.2))

/-- The address/city/state/zip quadruple split out of one address line
by `parseListings` (the block guarded by `if (addrText)`): with at
least two comma segments the first trimmed segment is the street
address, the re-joined remainder is matched against `matchCsz`, and on
mismatch the whole remainder is kept as the city; a comma-free line is
the street address alone. -/
def splitAddressLine (addrText : String) :
    Option String × Option String × Option String × Option String :=
  if addrText = "" then (none, none, none, none)
  else
    let parts := (splitChars (fun c => c = ',') addrText.data).map jsTrimChars
    match parts with
    | [_] => (some addrText, none, none, none)
    | p0 :: rest =>
      let address := if p0 = [] then none else some (String.mk p0)
      let csz := joinComma rest
      match matchCsz csz with
      | some (cityRaw, st, zp) =>
        let cityT := jsTrimChars cityRaw
        (address, if cityT = [] then none else some (String.mk cityT),
          some (String.mk st), zp.map String.mk)
      | none =>
        (address, if csz = [] then none else some (String.mk csz), none, none)
    | [] => (none, none, none, none)

/-- Modelled from the spec: the address split as §4.3 words it — the
same comma splitting, but with "a pattern requiring a 2-letter
uppercase token followed optionally by digits".  Used only to compare
the spec's wording with the code's case-insensitive pattern. -/
def claimedMatchCsz (cs : List Char) :
    Option (List Char × List Char × Option (List Char)) :=
  let g1 := cs.takeWhile (fun c => c ≠ ',')
  if g1 = [] then none
  else
    match cs.dropWhile (fun c => c ≠ ',') with
    | ',' :: r2 =>
      match r2.dropWhile isJsWs with
      | c1 :: c2 :: r4 =>
        if ('A' ≤ c1 && c1 ≤ 'Z') && ('A' ≤ c2 && c2 ≤ 'Z') then
          let digits := (r4.dropWhile isJsWs).take 5
          if digits.length = 5 && digits.all Char.isDigit then
            some (g1, [c1, c2], some digits)
          else some (g1, [c1, c2], none)
        else none
      | _ => none
    | _ => none

/-- Modelled from the spec: `splitAddressLine` with the claimed
uppercase-only pattern in place of the code's case-insensitive one. -/
def claimedSplitAddressLine (addrText : String) :
    Option String × Option String × Option String × Option String :=
  if addrText = "" then (none, none, none, none)
  else
    let parts := (splitChars (fun c => c = ',') addrText.data).map jsTrimChars
    match parts with
    | [_] => (some addrText, none, none, none)
    | p0 :: rest =>
      let address := if p0 = [] then none else some (String.mk p0)
      let csz := joinComma rest
      match claimedMatchCsz csz with
      | some (cityRaw, st, zp) =>
        let cityT := jsTrimChars cityRaw
        (address, if cityT = [] then none else some (String.mk cityT),
          some (String.mk st), zp.map String.mk)
      | none =>
        (address, if csz = [] then none else some (String.mk csz), none, none)
    | [] => (none, none, none, none)

end Lite

namespace Sync

/-- The (title, address) part of the lookup key, on the payload side. -/
def payKey (l : Esn.Listing) : String × String :=
  ((payload l).title, (payload l).address)

/-- The (title, address) part of the lookup key, on the stored side. -/
def rowKey (r : Row) : String × String :=
  (r.pay.title, r.pay.address)

/-- The rows an all-insert run appends: payloads with consecutive ids
starting at `n`. -/
def enumRows : Nat → List Esn.Listing → List Row
  | _, [] => []
  | n, l :: t => ⟨n, payload l⟩ :: enumRows (n + 1) t

end Sync

section Helpers

open Esn Sync Lite

lemma mapId {α : Type} (f : α → α) :
    ∀ (l : List α), (∀ x ∈ l, f x = x) → l.map f = l := by
  intro l
  induction l with
  | nil => intro _; rfl
  | cons a t ih =>
    intro h
    simp only [List.map_cons]
    rw [h a (by simp), ih (fun x hx => h x (by simp [hx]))]

lemma splitChars_no_sep (p : Char → Bool) :
    ∀ (cs : List Char), (∀ c ∈ cs, p c = false) → splitChars p cs = [cs] := by
  intro cs
  induction cs with
  | nil => intro _; rfl
  | cons c t ih =>
    intro h
    have ht : splitChars p t = [t] := ih (fun x hx => h x (by simp [hx]))
    simp only [splitChars, ht]
    rw [h c (by simp)]
    simp

lemma nodupMapOfCoarser {α β γ : Type} (f : α → β) (g : α → γ)
    (h : ∀ a b, g a = g b → f a = f b) :
    ∀ l : List α, (l.map f).Nodup → (l.map g).Nodup := by
  intro l
  induction l with
  | nil => intro _; simp
  | cons a t ih =>
    intro hnd
    rw [List.map_cons, List.nodup_cons] at hnd
    rw [List.map_cons, List.nodup_cons]
    refine ⟨?_, ih hnd.2⟩
    intro hga
    obtain ⟨x, hx, hgx⟩ := List.mem_map.mp hga
    exact hnd.1 (List.mem_map.mpr ⟨x, hx, h x a hgx⟩)

lemma dedupeAux_sublist : ∀ (ls : List Esn.Listing) (seen : List String),
    (dedupeAux ls seen).Sublist ls := by
  intro ls
  induction ls with
  | nil => intro seen; exact List.Sublist.refl _
  | cons l t ih =>
    intro seen
    by_cases h : dedupKey l ∈ seen
    · have e : dedupeAux (l :: t) seen = dedupeAux t seen := by
        simp only [dedupeAux]
        rw [if_pos (by simpa using h)]
      rw [e]
      exact (ih seen).cons l
    · simp only [dedupeAux]
      rw [if_neg (by simpa using h)]
      exact (ih (dedupKey l :: seen)).cons₂ l

lemma dedupeAux_keys : ∀ (ls : List Esn.Listing) (seen : List String),
    ((dedupeAux ls seen).map dedupKey).Nodup ∧
    ∀ k ∈ seen, k ∉ (dedupeAux ls seen).map dedupKey := by
  intro ls
  induction ls with
  | nil => intro seen; exact ⟨List.nodup_nil, by simp [dedupeAux]⟩
  | cons l t ih =>
    intro seen
    by_cases h : dedupKey l ∈ seen
    · have e : dedupeAux (l :: t) seen = dedupeAux t seen := by
        simp only [dedupeAux]
        rw [if_pos (by simpa using h)]
      rw [e]; exact ih seen
    · simp only [dedupeAux]
      rw [if_neg (by simpa using h)]
      obtain ⟨hnd, hdisj⟩ := ih (dedupKey l :: seen)
      refine ⟨List.nodup_cons.mpr ⟨hdisj _ (by simp), hnd⟩, ?_⟩
      intro k hk
      simp only [List.map_cons, List.mem_cons]
      rintro (rfl | hmem)
      · exact h hk
      · exact hdisj k (by simp [hk]) hmem

lemma dedupeAux_first : ∀ (ls : List Esn.Listing) (seen : List String)
    (l : Esn.Listing), l ∈ ls → dedupKey l ∉ seen →
    ∃ l', ls.find? (fun x => decide (dedupKey x = dedupKey l)) = some l' ∧
      l' ∈ dedupeAux ls seen ∧ dedupKey l' = dedupKey l := by
  intro ls
  induction ls with
  | nil => intro seen l hl; exact absurd hl (by simp)
  | cons a t ih =>
    intro seen l hl hns
    by_cases hk : dedupKey a = dedupKey l
    · refine ⟨a, ?_, ?_, hk⟩
      · exact List.find?_cons_of_pos _ (by simpa using hk)
      · have ha : dedupKey a ∉ seen := by rw [hk]; exact hns
        simp [dedupeAux, ha]
    · have hlt : l ∈ t := by
        rcases List.mem_cons.mp hl with rfl | hlt
        · exact absurd rfl hk
        · exact hlt
      rw [List.find?_cons_of_neg _ (by simpa using hk)]
      by_cases ha : dedupKey a ∈ seen
      · obtain ⟨l', h1, h2, h3⟩ := ih seen l hlt hns
        exact ⟨l', h1, by simp [dedupeAux, ha, h2], h3⟩
      · have hns' : dedupKey l ∉ dedupKey a :: seen := by
          simp only [List.mem_cons]
          rintro (h | h)
          · exact hk h.symm
          · exact hns h
        obtain ⟨l', h1, h2, h3⟩ := ih (dedupKey a :: seen) l hlt hns'
        exact ⟨l', h1, by simp [dedupeAux, ha, h2], h3⟩

end Helpers

section SyncLemmas

open Esn Sync

lemma rowMatches_iff {p : Esn.Listing} {r : Row} :
    rowMatches p r = true ↔
      (r.pay.title = p.title ∧ r.pay.address = p.address ∧
        (p.start_at = none ∨ r.pay.start_at = p.start_at)) := by
  simp [rowMatches]

lemma rowMatches_self (p : Esn.Listing) (n : Nat) :
    rowMatches p ⟨n, p⟩ = true := by
  simp [rowMatches]

lemma rowKey_of_matches {p : Esn.Listing} {r : Row}
    (h : rowMatches p r = true) : rowKey r = (p.title, p.address) := by
  obtain ⟨h1, h2, -⟩ := rowMatches_iff.mp h
  simp [rowKey, h1, h2]

lemma upsert_insert_of_fresh (item : Esn.Listing) (st : Store)
    (h : ∀ r ∈ st.rows, rowKey r ≠ payKey item) :
    upsertSale item st =
      (Action.insert, ⟨st.rows ++ [⟨st.next, payload item⟩], st.next + 1⟩) := by
  have hf : st.rows.find? (rowMatches (payload item)) = none := by
    rw [List.find?_eq_none]
    intro r hr hm
    exact h r hr (by rw [rowKey_of_matches hm]; rfl)
  simp [upsertSale, hf]

lemma enumRows_id_ge : ∀ (n : Nat) (ls : List Esn.Listing) (r : Row),
    r ∈ enumRows n ls → n ≤ r.id := by
  intro n ls
  induction ls generalizing n with
  | nil => intro r hr; exact absurd hr (by simp [enumRows])
  | cons l t ih =>
    intro r hr
    rcases List.mem_cons.mp hr with rfl | hr
    · exact Nat.le_refl _
    · exact Nat.le_of_succ_le (ih (n + 1) r hr)

lemma runSyncAux_all_insert : ∀ (ls : List Esn.Listing) (i u : Nat) (st : Store),
    (∀ l ∈ ls, ∀ r ∈ st.rows, rowKey r ≠ payKey l) →
    ls.Pairwise (fun a b => payKey a ≠ payKey b) →
    runSyncAux ls ⟨i, u, st⟩ =
      ⟨i + ls.length, u, ⟨st.rows ++ enumRows st.next ls, st.next + ls.length⟩⟩ := by
  intro ls
  induction ls with
  | nil => intro i u st _ _; simp [runSyncAux, enumRows]
  | cons l t ih =>
    intro i u st hdis hpw
    obtain ⟨hl, hpw'⟩ := List.pairwise_cons.mp hpw
    have hu := upsert_insert_of_fresh l st (fun r hr => hdis l (by simp) r hr)
    have step : runSyncAux (l :: t) ⟨i, u, st⟩ =
        runSyncAux t ⟨i + 1, u, ⟨st.rows ++ [⟨st.next, payload l⟩], st.next + 1⟩⟩ := by
      simp only [runSyncAux]
      rw [hu]
    rw [step]
    have hdis' : ∀ l' ∈ t, ∀ r ∈ st.rows ++ [(⟨st.next, payload l⟩ : Row)],
        rowKey r ≠ payKey l' := by
      intro l' hl' r hr
      rcases List.mem_append.mp hr with hr | hr
      · exact hdis l' (by simp [hl']) r hr
      · have : r = (⟨st.next, payload l⟩ : Row) := by simpa using hr
        subst this
        have : rowKey (⟨st.next, payload l⟩ : Row) = payKey l := rfl
        rw [this]
        exact hl l' hl'
    rw [ih (i + 1) u _ hdis' hpw']
    simp only [enumRows, List.length_cons, SyncRes.mk.injEq, Store.mk.injEq,
      List.append_assoc, List.singleton_append, and_true, true_and]
    exact ⟨by omega, by omega⟩

lemma runSyncAux_all_update : ∀ (ls : List Esn.Listing) (i u n nx : Nat)
    (pre : List Row),
    (∀ r ∈ pre, ∀ l ∈ ls, rowKey r ≠ payKey l) →
    (∀ r ∈ pre, r.id < n) →
    ls.Pairwise (fun a b => payKey a ≠ payKey b) →
    runSyncAux ls ⟨i, u, ⟨pre ++ enumRows n ls, nx⟩⟩ =
      ⟨i, u + ls.length, ⟨pre ++ enumRows n ls, nx⟩⟩ := by
  intro ls
  induction ls with
  | nil => intro i u n nx pre _ _ _; simp [runSyncAux, enumRows]
  | cons l t ih =>
    intro i u n nx pre hkey hid hpw
    obtain ⟨hl, hpw'⟩ := List.pairwise_cons.mp hpw
    have hrows : enumRows n (l :: t) = ⟨n, payload l⟩ :: enumRows (n + 1) t := rfl
    have hfind : (pre ++ enumRows n (l :: t)).find? (rowMatches (payload l)) =
        some ⟨n, payload l⟩ := by
      rw [List.find?_append]
      have hpre : pre.find? (rowMatches (payload l)) = none := by
        rw [List.find?_eq_none]
        intro r hr hm
        exact hkey r hr l (by simp) (by rw [rowKey_of_matches hm]; rfl)
      rw [hpre, hrows, List.find?_cons_of_pos _ (rowMatches_self (payload l) n)]
      rfl
    have hmap : (pre ++ enumRows n (l :: t)).map
        (fun x => if x.id = n then (⟨x.id, payload l⟩ : Row) else x) =
        pre ++ enumRows n (l :: t) := by
      apply mapId
      intro x hx
      rcases List.mem_append.mp hx with hx | hx
      · rw [if_neg (Nat.ne_of_lt (hid x hx))]
      · rw [hrows] at hx
        rcases List.mem_cons.mp hx with rfl | hx
        · simp
        · have := enumRows_id_ge (n + 1) t x hx
          rw [if_neg (by omega)]
    have hstep : upsertSale l ⟨pre ++ enumRows n (l :: t), nx⟩ =
        (Action.update, ⟨pre ++ enumRows n (l :: t), nx⟩) := by
      simp only [upsertSale, hfind]
      rw [hmap]
    have step : runSyncAux (l :: t) ⟨i, u, ⟨pre ++ enumRows n (l :: t), nx⟩⟩ =
        runSyncAux t ⟨i, u + 1, ⟨pre ++ enumRows n (l :: t), nx⟩⟩ := by
      simp only [runSyncAux]
      rw [hstep]
    rw [step]
    have hre : pre ++ enumRows n (l :: t) =
        (pre ++ [⟨n, payload l⟩]) ++ enumRows (n + 1) t := by
      rw [hrows, List.append_assoc, List.singleton_append]
    have hkey' : ∀ r ∈ pre ++ [(⟨n, payload l⟩ : Row)], ∀ l' ∈ t,
        rowKey r ≠ payKey l' := by
      intro r hr l' hl'
      rcases List.mem_append.mp hr with hr | hr
      · exact hkey r hr l' (by simp [hl'])
      · have : r = (⟨n, payload l⟩ : Row) := by simpa using hr
        subst this
        have he : rowKey (⟨n, payload l⟩ : Row) = payKey l := rfl
        rw [he]
        exact hl l' hl'
    have hid' : ∀ r ∈ pre ++ [(⟨n, payload l⟩ : Row)], r.id < n + 1 := by
      intro r hr
      rcases List.mem_append.mp hr with hr | hr
      · exact Nat.lt_succ_of_lt (hid r hr)
      · have : r = (⟨n, payload l⟩ : Row) := by simpa using hr
        subst this
        exact Nat.lt_succ_self n
    rw [hre, ih i (u + 1) (n + 1) nx _ hkey' hid' hpw']
    simp only [List.length_cons, SyncRes.mk.injEq, Store.mk.injEq, and_true, true_and]
    omega

lemma mainLoop_counts (fails : Esn.Listing → Bool) :
    ∀ (ls : List Esn.Listing) (c : RunCounts) (st : Store),
    (mainLoop fails ls c st).1.errors = c.errors + (ls.filter fails).length ∧
    (mainLoop fails ls c st).1.inserts + (mainLoop fails ls c st).1.updates =
      c.inserts + c.updates + (ls.filter (fun l => !fails l)).length := by
  intro ls
  induction ls with
  | nil => intro c st; simp [mainLoop]
  | cons l t ih =>
    intro c st
    by_cases hf : fails l
    · have step : mainLoop fails (l :: t) c st =
          mainLoop fails t ⟨c.inserts, c.updates, c.errors + 1⟩ st := by
        simp [mainLoop, hf]
      rw [step]
      obtain ⟨h1, h2⟩ := ih ⟨c.inserts, c.updates, c.errors + 1⟩ st
      constructor
      · rw [h1]; simp [List.filter, hf]; omega
      · rw [h2]; simp [List.filter, hf]
    · rcases hu : upsertSale l st with ⟨a, st'⟩
      cases a with
      | insert =>
        have step : mainLoop fails (l :: t) c st =
            mainLoop fails t ⟨c.inserts + 1, c.updates, c.errors⟩ st' := by
          simp [mainLoop, hf, hu]
        rw [step]
        obtain ⟨h1, h2⟩ := ih ⟨c.inserts + 1, c.updates, c.errors⟩ st'
        constructor
        · rw [h1]; simp [List.filter, hf]
        · rw [h2]; simp [List.filter, hf]; omega
      | update =>
        have step : mainLoop fails (l :: t) c st =
            mainLoop fails t ⟨c.inserts, c.updates + 1, c.errors⟩ st' := by
          simp [mainLoop, hf, hu]
        rw [step]
        obtain ⟨h1, h2⟩ := ih ⟨c.inserts, c.updates + 1, c.errors⟩ st'
        constructor
        · rw [h1]; simp [List.filter, hf]
        · rw [h2]; simp [List.filter, hf]; omega

end SyncLemmas

section Claims

open Esn Sync Lite

/-- Claim C3 (corrected).  The deduplicated output of a run has at most
one Listing per de-duplication key — and hence at most one per
NaturalKey — in first-seen order, and the representative of each key is
the FIRST listing with that key, kept whole: the code's filter keeps
the earliest record and discards later ones, it does not merge fields
(the claimed later-wins field-level merge is refuted by
`claim3_counterexample`). -/
theorem claim3_dedupe_first_wins (ls : List Esn.Listing) :
    (dedupeListings ls).Sublist ls ∧
    ((dedupeListings ls).map dedupKey).Nodup ∧
    ((dedupeListings ls).map naturalKey).Nodup ∧
    (∀ l ∈ ls, ∃ l',
      ls.find? (fun x => decide (dedupKey x = dedupKey l)) = some l' ∧
      l' ∈ dedupeListings ls ∧ dedupKey l' = dedupKey l) := by
  refine ⟨dedupeAux_sublist ls [], (dedupeAux_keys ls []).1, ?_, ?_⟩
  · refine nodupMapOfCoarser dedupKey naturalKey ?_ _ (dedupeAux_keys ls []).1
    intro a b hab
    have h1 : a.title = b.title := congrArg (fun k => k.1) hab
    have h2 : a.address = b.address := congrArg (fun k => k.2.1) hab
    simp [dedupKey, h1, h2]
  · intro l hl
    exact dedupeAux_first ls [] l hl (by simp)

/-- Claim C3 counterexample.  Two listings share the de-duplication key
`title|address`; the second carries hours data the first lacks.  The
claim's field-level merge would populate `hours` in the output, but the
code keeps the first record whole and drops the second, so the output's
only listing still has `hours_json = null`. -/
theorem claim3_counterexample :
    dedupeListings
        [⟨"Estate Sale A", "123 Main St", none, none, none, none, none, none,
            "estatesales.net"⟩,
          ⟨"Estate Sale A", "123 Main St", none, none, none,
            some ⟨"9am-3pm"⟩, none, none, "estatesales.net"⟩] =
      [⟨"Estate Sale A", "123 Main St", none, none, none, none, none, none,
          "estatesales.net"⟩] ∧
    (⟨"Estate Sale A", "123 Main St", none, none, none, some ⟨"9am-3pm"⟩,
        none, none, "estatesales.net"⟩ : Esn.Listing).hours_json ≠ none := by
  exact ⟨by decide, by decide⟩

/-- Claim C3 witness: the corrected deduplicator contract evaluated on a
two-element run with a repeated key. -/
theorem claim3_witness :
    (dedupeListings
        [⟨"S", "A", none, none, none, none, none, none, "estatesales.net"⟩,
          ⟨"S", "A", none, none, none, some ⟨"x"⟩, none, none,
            "estatesales.net"⟩]).Sublist
        [⟨"S", "A", none, none, none, none, none, none, "estatesales.net"⟩,
          ⟨"S", "A", none, none, none, some ⟨"x"⟩, none, none,
            "estatesales.net"⟩] ∧
    (∃ l', [(⟨"S", "A", none, none, none, none, none, none,
          "estatesales.net"⟩ : Esn.Listing),
        ⟨"S", "A", none, none, none, some ⟨"x"⟩, none, none,
          "estatesales.net"⟩].find?
          (fun x => decide (dedupKey x = dedupKey
            (⟨"S", "A", none, none, none, some ⟨"x"⟩, none, none,
              "estatesales.net"⟩ : Esn.Listing))) = some l' ∧
      l' ∈ dedupeListings
        [⟨"S", "A", none, none, none, none, none, none, "estatesales.net"⟩,
          ⟨"S", "A", none, none, none, some ⟨"x"⟩, none, none,
            "estatesales.net"⟩] ∧
      dedupKey l' = dedupKey (⟨"S", "A", none, none, none, some ⟨"x"⟩, none,
        none, "estatesales.net"⟩ : Esn.Listing)) :=
  ⟨(claim3_dedupe_first_wins _).1,
    (claim3_dedupe_first_wins _).2.2.2 _ (by decide)⟩

/-- Claim C4 (corrected).  The deduplicator's key is `(title, address)`,
not the spec's NaturalKey `(title, address, startAt)`: listings that
differ only in `startAt` have distinct NaturalKeys yet are collapsed
(`claim4_counterexample`).  What the code guarantees is that two
listings whose `(title, address)` keys differ are never merged: both
keys remain represented in the deduplicated output. -/
theorem claim4_no_cross_key_merge (ls : List Esn.Listing)
    (l1 l2 : Esn.Listing) (h1 : l1 ∈ ls) (h2 : l2 ∈ ls) :
    (∃ r ∈ dedupeListings ls, dedupKey r = dedupKey l1) ∧
    (∃ r ∈ dedupeListings ls, dedupKey r = dedupKey l2) := by
  obtain ⟨r1, -, hm1, hk1⟩ := dedupeAux_first ls [] l1 h1 (by simp)
  obtain ⟨r2, -, hm2, hk2⟩ := dedupeAux_first ls [] l2 h2 (by simp)
  exact ⟨⟨r1, hm1, hk1⟩, ⟨r2, hm2, hk2⟩⟩

/-- Claim C4 counterexample.  Two listings at the same title and address
on different dates: their NaturalKeys `(title, address, startAt)`
differ, yet deduplication collapses them into one output record —
refuting "deduplication never merges two Listings whose NaturalKeys
differ". -/
theorem claim4_counterexample :
    dedupeListings
        [⟨"Estate Sale A", "123 Main St", none, some ⟨11, 7, 9⟩,
            some ⟨11, 7, 15⟩, none, none, none, "estatesales.net"⟩,
          ⟨"Estate Sale A", "123 Main St", none, some ⟨11, 8, 9⟩,
            some ⟨11, 8, 15⟩, none, none, none, "estatesales.net"⟩] =
      [⟨"Estate Sale A", "123 Main St", none, some ⟨11, 7, 9⟩,
          some ⟨11, 7, 15⟩, none, none, none, "estatesales.net"⟩] ∧
    naturalKey (⟨"Estate Sale A", "123 Main St", none, some ⟨11, 7, 9⟩,
        some ⟨11, 7, 15⟩, none, none, none, "estatesales.net"⟩ : Esn.Listing) ≠
      naturalKey (⟨"Estate Sale A", "123 Main St", none, some ⟨11, 8, 9⟩,
        some ⟨11, 8, 15⟩, none, none, none, "estatesales.net"⟩ : Esn.Listing) := by
  exact ⟨by decide, by decide⟩

/-- Claim C4 witness: the corrected no-cross-key-merge property at two
listings with distinct `(title, address)` keys. -/
theorem claim4_witness :
    (∃ r ∈ dedupeListings
        [⟨"S1", "A1", none, none, none, none, none, none, "estatesales.net"⟩,
          ⟨"S2", "A2", none, none, none, none, none, none, "estatesales.net"⟩],
      dedupKey r = dedupKey (⟨"S1", "A1", none, none, none, none, none, none,
        "estatesales.net"⟩ : Esn.Listing)) ∧
    (∃ r ∈ dedupeListings
        [⟨"S1", "A1", none, none, none, none, none, none, "estatesales.net"⟩,
          ⟨"S2", "A2", none, none, none, none, none, none, "estatesales.net"⟩],
      dedupKey r = dedupKey (⟨"S2", "A2", none, none, none, none, none, none,
        "estatesales.net"⟩ : Esn.Listing)) :=
  claim4_no_cross_key_merge _ _ _ (by decide) (by decide)

/-- Claim C10 (confirmed).  Every listing the live HTML extractor
`parseList` emits has `distance_mi = null`: the record is built with a
literal null distance, so distance data can only enter a row outside
the extraction path. -/
theorem claim10_extractor_distance_null (homeBase : String)
    (cards : List Esn.Card) (l : Esn.Listing)
    (h : l ∈ parseList homeBase cards) : l.distance_mi = none := by
  obtain ⟨c, -, hc⟩ := List.mem_filterMap.mp h
  unfold parseCard at hc
  split at hc
  · exact absurd hc (by simp)
  · split at hc
    · exact absurd hc (by simp)
    · have h2 := Option.some.inj hc
      rw [← h2]

/-- Claim C10 witness: a concrete card passes the extractor's filters
and its listing indeed carries a null distance. -/
theorem claim10_witness :
    (⟨"Sale", "", none, none, none, none, none, none,
        "estatesales.net"⟩ : Esn.Listing) ∈
      parseList ("home") [⟨"Sale", "", "", "", "estate sale"⟩] ∧
    (⟨"Sale", "", none, none, none, none, none, none,
        "estatesales.net"⟩ : Esn.Listing).distance_mi = none :=
  have hmem : (⟨"Sale", "", none, none, none, none, none, none,
      "estatesales.net"⟩ : Esn.Listing) ∈
      parseList ("home") [⟨"Sale", "", "", "", "estate sale"⟩] := by
    rw [show parseList ("home") [(⟨"Sale", "", "", "", "estate sale"⟩ : Esn.Card)] =
      [⟨"Sale", "", none, none, none, none, none, none, "estatesales.net"⟩]
      from by decide]
    exact List.mem_singleton.mpr rfl
  ⟨hmem, claim10_extractor_distance_null ("home")
    [⟨"Sale", "", "", "", "estate sale"⟩] _ hmem⟩

/-- Reduction of `parseDateRange` once its part list is a singleton. -/
lemma parseDateRange_single (raw : String) (p : String)
    (h : dateParts raw = [p]) :
    parseDateRange raw =
      (match parseDay p with
        | some (m, d) => ⟨some ⟨m, d, 9⟩, some ⟨m, d, 15⟩⟩
        | none => ⟨none, none⟩) := by
  unfold parseDateRange
  rw [h]

/-- Reduction of `parseDateRange` once its part list has two or more
entries. -/
lemma parseDateRange_multi (raw : String) (p1 p2 : String)
    (rest : List String) (h : dateParts raw = p1 :: p2 :: rest) :
    parseDateRange raw =
      (match parseDay p1, parseDay p2 with
        | some (m1, d1), some (m2, d2) =>
          ⟨some ⟨m1, d1, 9⟩, some ⟨m2, d2, 15⟩⟩
        | _, _ => ⟨none, none⟩) := by
  unfold parseDateRange
  rw [h]

/-- Any result of `parseDateRange` is the null pair or a pair of set
times at the fixed 9:00 and 15:00 hours. -/
lemma parseDateRange_shape (raw : String) :
    parseDateRange raw = ⟨none, none⟩ ∨
    ∃ m1 d1 m2 d2, parseDateRange raw =
      ⟨some ⟨m1, d1, 9⟩, some ⟨m2, d2, 15⟩⟩ := by
  rcases h : dateParts raw with _ | ⟨p, _ | ⟨p2, t2⟩⟩
  · left
    unfold parseDateRange
    rw [h]
  · rcases hp : parseDay p with _ | ⟨m, d⟩
    · left
      rw [parseDateRange_single raw p h, hp]
    · right
      exact ⟨m, d, m, d, by rw [parseDateRange_single raw p h, hp]⟩
  · rcases h1 : parseDay p with _ | ⟨m1, d1⟩ <;>
      rcases h2 : parseDay p2 with _ | ⟨m2, d2⟩
    · left
      rw [parseDateRange_multi raw p p2 t2 h, h1, h2]
    · left
      rw [parseDateRange_multi raw p p2 t2 h, h1, h2]
    · left
      rw [parseDateRange_multi raw p p2 t2 h, h1, h2]
    · right
      exact ⟨m1, d1, m2, d2, by rw [parseDateRange_multi raw p p2 t2 h, h1, h2]⟩

/-- Claim C5 (corrected).  For every date text the normalized pair is
both null or both set (the claim's first half holds), and when both are
set they sit at the fixed 9:00 and 15:00 hours; but `endAt ≥ startAt`
holds exactly when the parsed end DATE is not before the start date —
a reversed two-part range produces `endAt < startAt`
(`claim5_counterexample`), so the unconditional `endAt ≥ startAt` of
the claim fails. -/
theorem claim5_date_pair_invariant (raw : String) :
    ((parseDateRange raw).start_at = none ↔ (parseDateRange raw).end_at = none) ∧
    (∀ s e, (parseDateRange raw).start_at = some s →
      (parseDateRange raw).end_at = some e →
      s.hour = 9 ∧ e.hour = 15 ∧
      (tsMinutes s ≤ tsMinutes e ↔ dateIdx s ≤ dateIdx e)) := by
  rcases parseDateRange_shape raw with h | ⟨m1, d1, m2, d2, h⟩
  · rw [h]
    exact ⟨by simp, by simp⟩
  · rw [h]
    refine ⟨by simp, ?_⟩
    intro s e hs he
    have hs' : (⟨m1, d1, 9⟩ : LocalTime) = s := by simpa using hs
    have he' : (⟨m2, d2, 15⟩ : LocalTime) = e := by simpa using he
    subst hs'
    subst he'
    refine ⟨rfl, rfl, ?_⟩
    simp only [tsMinutes, dateIdx]
    omega

/-- Claim C5 counterexample.  The reversed range text parses to a set
pair whose end precedes its start: `endAt ≥ startAt` fails. -/
theorem claim5_counterexample :
    parseDateRange ("Nov 8 - Nov 7") = ⟨some ⟨11, 8, 9⟩, some ⟨11, 7, 15⟩⟩ ∧
    tsMinutes ⟨11, 7, 15⟩ < tsMinutes ⟨11, 8, 9⟩ :=
  ⟨by decide, by decide⟩

/-- Claim C5 witness: the corrected invariant evaluated on a single
parseable date. -/
theorem claim5_witness :
    ((parseDateRange ("Nov 8")).start_at = none ↔
      (parseDateRange ("Nov 8")).end_at = none) ∧
    ((⟨11, 8, 9⟩ : LocalTime).hour = 9 ∧ (⟨11, 8, 15⟩ : LocalTime).hour = 15 ∧
      (tsMinutes ⟨11, 8, 9⟩ ≤ tsMinutes ⟨11, 8, 15⟩ ↔
        dateIdx ⟨11, 8, 9⟩ ≤ dateIdx ⟨11, 8, 15⟩)) :=
  ⟨(claim5_date_pair_invariant ("Nov 8")).1,
    (claim5_date_pair_invariant ("Nov 8")).2 ⟨11, 8, 9⟩ ⟨11, 8, 15⟩
      (by decide) (by decide)⟩

/-- Claim C6 (confirmed).  A single parseable date yields a one-day
event at the fixed local hours 9:00–15:00 of that same date; a
dash-separated range with both of its first two parts parseable maps
the first date to 9:00 and the second to 15:00 on its own date; an
unparseable single part, or a range with an unparseable part, yields
the null pair — and in general the pair is never half-filled. -/
theorem claim6_date_parse_cases (raw : String) :
    (∀ p m d, dateParts raw = [p] → parseDay p = some (m, d) →
      parseDateRange raw = ⟨some ⟨m, d, 9⟩, some ⟨m, d, 15⟩⟩) ∧
    (∀ p1 p2 rest m1 d1 m2 d2, dateParts raw = p1 :: p2 :: rest →
      parseDay p1 = some (m1, d1) → parseDay p2 = some (m2, d2) →
      parseDateRange raw = ⟨some ⟨m1, d1, 9⟩, some ⟨m2, d2, 15⟩⟩) ∧
    (∀ p, dateParts raw = [p] → parseDay p = none →
      parseDateRange raw = ⟨none, none⟩) ∧
    (∀ p1 p2 rest, dateParts raw = p1 :: p2 :: rest →
      parseDay p1 = none ∨ parseDay p2 = none →
      parseDateRange raw = ⟨none, none⟩) ∧
    ((parseDateRange raw).start_at = none ↔
      (parseDateRange raw).end_at = none) := by
  refine ⟨?_, ?_, ?_, ?_, ?_⟩
  · intro p m d hp hd
    rw [parseDateRange_single raw p hp, hd]
  · intro p1 p2 rest m1 d1 m2 d2 hp h1 h2
    rw [parseDateRange_multi raw p1 p2 rest hp, h1, h2]
  · intro p hp hd
    rw [parseDateRange_single raw p hp, hd]
  · intro p1 p2 rest hp hor
    rw [parseDateRange_multi raw p1 p2 rest hp]
    rcases hor with h | h
    · rcases h2 : parseDay p2 with _ | ⟨m2, d2⟩ <;>
        first
        | rfl
        | rw [h]
    · rcases h1 : parseDay p1 with _ | ⟨m1, d1⟩ <;>
        first
        | rfl
        | rw [h]
  · rcases parseDateRange_shape raw with h | ⟨m1, d1, m2, d2, h⟩ <;> (rw [h]; try simp)

/-- Claim C6 witness: the four parsing cases at concrete date texts,
including the examples named in the source comments. -/
theorem claim6_witness :
    parseDateRange ("Nov 8") = ⟨some ⟨11, 8, 9⟩, some ⟨11, 8, 15⟩⟩ ∧
    parseDateRange ("Fri Nov 7 – Sat Nov 8") =
      ⟨some ⟨11, 7, 9⟩, some ⟨11, 8, 15⟩⟩ ∧
    parseDateRange ("this weekend") = ⟨none, none⟩ ∧
    parseDateRange ("Nov 9–10") = ⟨none, none⟩ :=
  ⟨(claim6_date_parse_cases _).1 ("Nov 8") 11 8 (by decide) (by decide),
    (claim6_date_parse_cases _).2.1 ("Fri Nov 7") ("Sat Nov 8") [] 11 7 11 8
      (by decide) (by decide) (by decide),
    (claim6_date_parse_cases _).2.2.1 ("this weekend") (by decide) (by decide),
    (claim6_date_parse_cases _).2.2.2.1 ("Nov 9") ("10") [] (by decide)
      (Or.inr (by decide))⟩

/-- The items a filter keeps and the items it drops partition the
list. -/
lemma filterSplitLength {α : Type} (p : α → Bool) :
    ∀ l : List α,
      (l.filter p).length + (l.filter (fun x => !p x)).length = l.length := by
  intro l
  induction l with
  | nil => rfl
  | cons a t ih =>
    by_cases h : p a <;> simp [List.filter, h] <;> omega

/-- Claim C1 (corrected).  The quantifier over "deduplicated Listing
sets" must be narrowed: the deduplicator's key uses the raw title and
address, while `upsertSale` looks rows up by the TRIMMED/defauled
payload title — so a deduplicated set can still collide inside the
store (`claim1_counterexample`).  For every listing set whose payload
`(title, address)` keys are pairwise distinct, the first run against
an empty store inserts every item and updates none, and an identical
second run against the resulting store inserts none, updates every
item, and leaves the store byte-for-byte unchanged (zero actual field
changes). -/
theorem claim1_sync_idempotent (ls : List Esn.Listing)
    (h : ls.Pairwise (fun a b => payKey a ≠ payKey b)) :
    (runSync ls emptyStore).inserts = ls.length ∧
    (runSync ls emptyStore).updates = 0 ∧
    (runSync ls (runSync ls emptyStore).store).inserts = 0 ∧
    (runSync ls (runSync ls emptyStore).store).updates = ls.length ∧
    (runSync ls (runSync ls emptyStore).store).store =
      (runSync ls emptyStore).store := by
  have e1 : runSync ls emptyStore =
      ⟨ls.length, 0, ⟨enumRows 0 ls, ls.length⟩⟩ := by
    rw [runSync, runSyncAux_all_insert ls 0 0 emptyStore
      (fun l _ r hr => absurd hr (by simp [emptyStore])) h]
    simp [emptyStore]
  have e2 : runSync ls (⟨enumRows 0 ls, ls.length⟩ : Store) =
      ⟨0, ls.length, ⟨enumRows 0 ls, ls.length⟩⟩ := by
    have h2 := runSyncAux_all_update ls 0 0 0 ls.length []
      (fun r hr => absurd hr (by simp))
      (fun r hr => absurd hr (by simp)) h
    rw [runSync]
    simpa using h2
  rw [e1]
  simp only []
  rw [e2]
  simp

/-- Claim C1 counterexample.  Titles `"A "` and `"A"` at the same
address survive deduplication (their raw keys differ), but both
normalize to payload title `"A"`, so the second item's store lookup
finds the first item's row: a deduplicated set of size 2 yields
`insertedCount = 1, updatedCount = 1` on the first run, not
`insertedCount = 2`. -/
theorem claim1_counterexample :
    dedupeListings
        [⟨"A ", "X", none, none, none, none, none, none, "estatesales.net"⟩,
          ⟨"A", "X", none, none, none, none, none, none, "estatesales.net"⟩] =
      [⟨"A ", "X", none, none, none, none, none, none, "estatesales.net"⟩,
        ⟨"A", "X", none, none, none, none, none, none, "estatesales.net"⟩] ∧
    (runSync
        [⟨"A ", "X", none, none, none, none, none, none, "estatesales.net"⟩,
          ⟨"A", "X", none, none, none, none, none, none, "estatesales.net"⟩]
        emptyStore).inserts = 1 ∧
    (runSync
        [⟨"A ", "X", none, none, none, none, none, none, "estatesales.net"⟩,
          ⟨"A", "X", none, none, none, none, none, none, "estatesales.net"⟩]
        emptyStore).updates = 1 :=
  ⟨by decide, by decide, by decide⟩

/-- Claim C1 witness: the corrected idempotence property on a concrete
two-listing set with distinct payload keys. -/
theorem claim1_witness :
    (runSync
        [⟨"A", "X", none, none, none, none, none, none, "estatesales.net"⟩,
          ⟨"B", "Y", none, none, none, none, none, none, "estatesales.net"⟩]
        emptyStore).inserts = 2 ∧
    (runSync
        [⟨"A", "X", none, none, none, none, none, none, "estatesales.net"⟩,
          ⟨"B", "Y", none, none, none, none, none, none, "estatesales.net"⟩]
        (runSync
          [⟨"A", "X", none, none, none, none, none, none, "estatesales.net"⟩,
            ⟨"B", "Y", none, none, none, none, none, none, "estatesales.net"⟩]
          emptyStore).store).store =
      (runSync
        [⟨"A", "X", none, none, none, none, none, none, "estatesales.net"⟩,
          ⟨"B", "Y", none, none, none, none, none, none, "estatesales.net"⟩]
        emptyStore).store :=
  ⟨(claim1_sync_idempotent _ (by decide)).1.trans (by decide),
    (claim1_sync_idempotent _ (by decide)).2.2.2.2⟩

/-- Claim C2 (corrected).  The update path of `upsertSale` is a
whole-row write, not a field-level merge: the matched row's payload
columns are all replaced by the incoming payload, so a stored non-null
field IS overwritten by an incoming null — in particular stored hours
`{generic: "9am-3pm"}` become null when the incoming listing has null
hours (`claim2_counterexample`). -/
theorem claim2_update_replaces_row (item : Esn.Listing) (st : Store) (r : Row)
    (h : st.rows.find? (rowMatches (payload item)) = some r) :
    (upsertSale item st).1 = Action.update ∧
    (⟨r.id, payload item⟩ : Row) ∈ (upsertSale item st).2.rows := by
  constructor
  · simp [upsertSale, h]
  · have hr : r ∈ st.rows := List.mem_of_find?_eq_some h
    have hrows : (upsertSale item st).2.rows =
        st.rows.map (fun x => if x.id = r.id then ⟨x.id, payload item⟩ else x) := by
      simp [upsertSale, h]
    rw [hrows]
    have hm := List.mem_map_of_mem
      (fun x => if x.id = r.id then (⟨x.id, payload item⟩ : Row) else x) hr
    simpa using hm

/-- Claim C2 counterexample.  A stored row with
`hours_json = {generic: "9am-3pm"}` is synchronized against an incoming
listing with the same natural key and null hours: the update leaves the
row with `hours_json = null`, losing the stored value. -/
theorem claim2_counterexample :
    (upsertSale
        ⟨"Estate Sale A", "123 Main St", none, none, none, none, none, none,
          "estatesales.net"⟩
        ⟨[⟨0, ⟨"Estate Sale A", "123 Main St", none, none, none,
            some ⟨"9am-3pm"⟩, none, none, "estatesales.net"⟩⟩], 1⟩).2.rows.map
      (fun r => r.pay.hours_json) = [none] ∧
    ([⟨0, ⟨"Estate Sale A", "123 Main St", none, none, none,
        some ⟨"9am-3pm"⟩, none, none, "estatesales.net"⟩⟩] :
      List Row).map (fun r => r.pay.hours_json) = [some ⟨"9am-3pm"⟩] ∧
    (upsertSale
        ⟨"Estate Sale A", "123 Main St", none, none, none, none, none, none,
          "estatesales.net"⟩
        ⟨[⟨0, ⟨"Estate Sale A", "123 Main St", none, none, none,
            some ⟨"9am-3pm"⟩, none, none, "estatesales.net"⟩⟩], 1⟩).1 =
      Action.update :=
  ⟨by decide, by decide, by decide⟩

/-- Claim C2 witness: the whole-row-replacement behavior at a concrete
matched row. -/
theorem claim2_witness :
    (upsertSale
        ⟨"T", "A", none, none, none, none, none, none, "estatesales.net"⟩
        ⟨[⟨0, ⟨"T", "A", none, none, none, some ⟨"h"⟩, none, none,
            "estatesales.net"⟩⟩], 1⟩).1 = Action.update ∧
    (⟨0, payload ⟨"T", "A", none, none, none, none, none, none,
        "estatesales.net"⟩⟩ : Row) ∈
      (upsertSale
        ⟨"T", "A", none, none, none, none, none, none, "estatesales.net"⟩
        ⟨[⟨0, ⟨"T", "A", none, none, none, some ⟨"h"⟩, none, none,
            "estatesales.net"⟩⟩], 1⟩).2.rows :=
  claim2_update_replaces_row
    ⟨"T", "A", none, none, none, none, none, none, "estatesales.net"⟩
    ⟨[⟨0, ⟨"T", "A", none, none, none, some ⟨"h"⟩, none, none,
        "estatesales.net"⟩⟩], 1⟩
    ⟨0, ⟨"T", "A", none, none, none, some ⟨"h"⟩, none, none,
      "estatesales.net"⟩⟩
    (by decide)

/-- Claim C7 (corrected).  The per-item half of the claim holds: a
failing upsert is caught, `errorCount` is incremented, and the
remaining items are still processed (every item is accounted for by
exactly one counter).  The reporting half fails: the run is logged with
status `"success"` whatever the error count — it is never reported as
partially failed (`claim7_counterexample`); the counts appear only in
the notes text. -/
theorem claim7_per_item_errors (fails : Esn.Listing → Bool)
    (items : List Esn.Listing) (st : Store) :
    (mainLoop fails items ⟨0, 0, 0⟩ st).1.errors =
      (items.filter fails).length ∧
    (mainLoop fails items ⟨0, 0, 0⟩ st).1.inserts +
      (mainLoop fails items ⟨0, 0, 0⟩ st).1.updates +
      (mainLoop fails items ⟨0, 0, 0⟩ st).1.errors = items.length ∧
    (mainReport fails items st).status = "success" := by
  obtain ⟨h1, h2⟩ := mainLoop_counts fails items ⟨0, 0, 0⟩ st
  dsimp only at h1 h2
  refine ⟨by simpa using h1, ?_, rfl⟩
  have h3 := filterSplitLength fails items
  omega

/-- Claim C7 counterexample.  A batch whose single item fails is logged
with status `"success"` and `errorCount = 1`: the run is not reported
as partially failed. -/
theorem claim7_counterexample :
    (mainLoop (fun _ => true)
        [⟨"A", "X", none, none, none, none, none, none, "estatesales.net"⟩]
        ⟨0, 0, 0⟩ emptyStore).1.errors = 1 ∧
    (mainReport (fun _ => true)
        [⟨"A", "X", none, none, none, none, none, none, "estatesales.net"⟩]
        emptyStore).status = "success" ∧
    (mainReport (fun _ => true)
        [⟨"A", "X", none, none, none, none, none, none, "estatesales.net"⟩]
        emptyStore).notes = "done: 1 fetched, 0 inserted, 0 updated, 1 errors" :=
  ⟨by decide, by decide, by decide⟩

/-- A run of characters satisfying `p` followed by a failing character
splits a `takeWhile`/`dropWhile` pair exactly there. -/
lemma splitRunAt (p : Char → Bool) :
    ∀ (xs : List Char), (∀ c ∈ xs, p c = true) →
    ∀ (y : Char) (ys : List Char), p y = false →
      (xs ++ y :: ys).takeWhile p = xs ∧
      (xs ++ y :: ys).dropWhile p = y :: ys := by
  intro xs
  induction xs with
  | nil =>
    intro _ y ys hy
    constructor
    · simp [List.takeWhile_cons, hy]
    · simp [List.dropWhile_cons, hy]
  | cons a t ih =>
    intro h y ys hy
    have ha : p a = true := h a (by simp)
    obtain ⟨h1, h2⟩ := ih (fun c hc => h c (by simp [hc])) y ys hy
    constructor
    · simp [List.takeWhile_cons, ha, h1]
    · simp [List.dropWhile_cons, ha, h2]

/-- An ASCII letter is not JavaScript whitespace. -/
lemma letterNotWs (c : Char) (h : isAsciiLetter c = true) : isJsWs c = false := by
  cases hjs : isJsWs c
  · rfl
  · have hc : ((c = ' ' ∨ c = '\t') ∨ c = '\n') ∨ c = '\r' := by
      simpa [isJsWs] using hjs
    rcases hc with ((rfl | rfl) | rfl) | rfl <;> exact absurd h (by decide)

/-- Claim C8 (corrected).  Comma-free address text becomes the street
address with null city/state/zip and no error — the "PO Box 9" scenario
holds.  With two or more comma segments the first trimmed segment is
the street address and the re-joined remainder is matched for
city/state/zip: when the pattern fails the FULL remainder becomes the
city with state and zip null, and when it succeeds the captured city is
trimmed, the region code stored, and the optional five-digit zip kept —
all universally over address texts.  The region-code pattern itself is
case-insensitive (the regex carries the `i` flag): ANY remainder of the
shape `city, ws letter letter …` matches, whatever the letters' case,
and the stored code is uppercased — rather than falling back to the
city value as the claimed uppercase-only pattern would
(`claim8_counterexample`). -/
theorem claim8_address_split :
    (∀ s : String, s ≠ "" → hasChar ',' s = false →
      splitAddressLine s = (some s, none, none, none)) ∧
    (∀ (s : String) (p0 r1 : List Char) (rs : List (List Char)),
      s ≠ "" →
      (splitChars (fun c => c = ',') s.data).map jsTrimChars = p0 :: r1 :: rs →
      (matchCsz (joinComma (r1 :: rs)) = none →
        splitAddressLine s =
          (if p0 = [] then none else some (String.mk p0),
            if joinComma (r1 :: rs) = [] then none
              else some (String.mk (joinComma (r1 :: rs))),
            none, none)) ∧
      (∀ cityRaw st zp,
        matchCsz (joinComma (r1 :: rs)) = some (cityRaw, st, zp) →
        splitAddressLine s =
          (if p0 = [] then none else some (String.mk p0),
            if jsTrimChars cityRaw = [] then none
              else some (String.mk (jsTrimChars cityRaw)),
            some (String.mk st), zp.map String.mk))) ∧
    (∀ (g1 wsp : List Char) (c1 c2 : Char) (r4 : List Char),
      g1 ≠ [] → (∀ c ∈ g1, c ≠ ',') →
      (∀ c ∈ wsp, isJsWs c = true) →
      isAsciiLetter c1 = true → isAsciiLetter c2 = true →
      matchCsz (g1 ++ ',' :: (wsp ++ c1 :: c2 :: r4)) =
        some (g1, [c1.toUpper, c2.toUpper],
          if ((r4.dropWhile isJsWs).take 5).length = 5 ∧
              ((r4.dropWhile isJsWs).take 5).all Char.isDigit = true
          then some ((r4.dropWhile isJsWs).take 5) else none)) ∧
    splitAddressLine ("1 Elm St, Springfield, il 62701") =
      (some ("1 Elm St"), some ("Springfield"), some ("IL"),
        some ("62701")) ∧
    splitAddressLine ("9 A St, Unknown Something") =
      (some ("9 A St"), some ("Unknown Something"), none, none) := by
  refine ⟨?_, ?_, ?_, by decide, by decide⟩
  · intro s hne hnc
    have hmem : (',' : Char) ∉ s.data := by simpa [hasChar] using hnc
    have hsp : splitChars (fun c => decide (c = ',')) s.data = [s.data] := by
      apply splitChars_no_sep
      intro c hc
      simp only [decide_eq_false_iff_not]
      exact fun he => hmem (he ▸ hc)
    unfold Lite.splitAddressLine
    rw [if_neg hne, hsp]
    rfl
  · intro s p0 r1 rs hne hparts
    constructor
    · intro hmz
      unfold Lite.splitAddressLine
      rw [if_neg hne, hparts]
      dsimp only
      rw [hmz]
    · intro cityRaw st zp hmz
      unfold Lite.splitAddressLine
      rw [if_neg hne, hparts]
      dsimp only
      rw [hmz]
  · intro g1 wsp c1 c2 r4 hg hgc hws h1 h2
    obtain ⟨-, hd1⟩ := splitRunAt (fun c => decide (c ≠ ',')) g1
      (fun c hc => by simpa using hgc c hc) ',' (wsp ++ c1 :: c2 :: r4)
      (by decide)
    obtain ⟨ht1, -⟩ := splitRunAt (fun c => decide (c ≠ ',')) g1
      (fun c hc => by simpa using hgc c hc) ',' (wsp ++ c1 :: c2 :: r4)
      (by decide)
    obtain ⟨-, hd2⟩ := splitRunAt isJsWs wsp hws c1 (c2 :: r4)
      (letterNotWs c1 h1)
    unfold Lite.matchCsz
    rw [ht1, if_neg hg, hd1]
    have hcomma : matchAfterComma (',' :: (wsp ++ c1 :: c2 :: r4)) =
        matchStateZip ((wsp ++ c1 :: c2 :: r4).dropWhile isJsWs) := rfl
    rw [hcomma, hd2]
    simp only [Lite.matchStateZip]
    rw [h1, h2]
    simp only [Bool.and_self, if_true]
    by_cases hdig : ((r4.dropWhile isJsWs).take 5).length = 5 ∧
        ((r4.dropWhile isJsWs).take 5).all Char.isDigit = true
    · simp [hdig.1, hdig.2]
    · rw [if_neg hdig]
      rcases not_and_or.mp hdig with h5 | hall
      · have hb : (decide (((r4.dropWhile isJsWs).take 5).length = 5) &&
            ((r4.dropWhile isJsWs).take 5).all Char.isDigit) = false := by
          rw [decide_eq_false h5, Bool.false_and]
        rw [hb]
        simp
      · have hfalse : ((r4.dropWhile isJsWs).take 5).all Char.isDigit = false := by
          revert hall
          cases ((r4.dropWhile isJsWs).take 5).all Char.isDigit <;> simp
        simp [hfalse]

/-- Claim C8 counterexample.  The remainder `"Springfield, il 62701"`
has no 2-letter UPPERCASE region token, so the claimed pattern would
fall back to keeping the whole remainder as the city; the code's
case-insensitive pattern instead matches `"il"` and stores `"IL"`. -/
theorem claim8_counterexample :
    splitAddressLine ("1 Elm St, Springfield, il 62701") ≠
      claimedSplitAddressLine ("1 Elm St, Springfield, il 62701") ∧
    claimedSplitAddressLine ("1 Elm St, Springfield, il 62701") =
      (some ("1 Elm St"), some ("Springfield, il 62701"), none, none) :=
  ⟨by decide, by decide⟩

/-- Claim C8 witness: the spec's malformed-address scenario, via the
comma-free clause of the theorem. -/
theorem claim8_witness :
    splitAddressLine ("PO Box 9") = (some ("PO Box 9"), none, none, none) :=
  claim8_address_split.1 ("PO Box 9") (by decide) (by decide)

/-- Claim C9 (confirmed).  In the upsert worker's shape guard the
normalized title is the trimmed input title, or the fixed placeholder
`'Untitled Estate Sale'` when the title is absent or empty after
trimming, and is never empty (and never null: the result type is a
plain string).  In the light scraper's `normalize` the same shape holds
with placeholder `'Estate Sale'` for the titles its extractor produces
(null or already trimmed by `cleanText`). -/
theorem claim9_title_normalization :
    (∀ t : Option String, normTitle t ≠ "" ∧
      (∀ s, t = some s → jsTrim s ≠ "" → normTitle t = jsTrim s) ∧
      (∀ s, t = some s → jsTrim s = "" →
        normTitle t = "Untitled Estate Sale") ∧
      (t = none → normTitle t = "Untitled Estate Sale")) ∧
    (∀ t : Option String, (t = none ∨ ∃ s, t = some s ∧ jsTrim s = s) →
      normalizeTitle t ≠ "" ∧
      (∀ s, t = some s → s ≠ "" → normalizeTitle t = jsTrim s) ∧
      (∀ s, t = some s → s = "" → normalizeTitle t = "Estate Sale") ∧
      (t = none → normalizeTitle t = "Estate Sale")) := by
  constructor
  · intro t
    rcases t with _ | s
    · refine ⟨by decide, ?_, ?_, fun _ => rfl⟩
      · intro s hs
        cases hs
      · intro s hs
        cases hs
    · by_cases h : jsTrim s = ""
      · refine ⟨?_, ?_, ?_, ?_⟩
        · simp [normTitle, h]
        · intro s' hs' hne
          cases hs'
          exact absurd h hne
        · intro s' hs' _
          cases hs'
          simp [normTitle, h]
        · intro hn
          cases hn
      · refine ⟨?_, ?_, ?_, ?_⟩
        · simp only [normTitle, if_neg h]
          exact h
        · intro s' hs' _
          cases hs'
          simp [normTitle, h]
        · intro s' hs' he
          cases hs'
          exact absurd he h
        · intro hn
          cases hn
  · intro t ht
    rcases t with _ | s
    · refine ⟨by decide, ?_, ?_, fun _ => rfl⟩
      · intro s hs
        cases hs
      · intro s hs
        cases hs
    · have hts : jsTrim s = s := by
        rcases ht with h | ⟨s', hs', ht'⟩
        · cases h
        · cases hs'
          exact ht'
      by_cases h : s = ""
      · refine ⟨?_, ?_, ?_, ?_⟩
        · simp [normalizeTitle, h]
        · intro s' hs' hne
          cases hs'
          exact absurd h hne
        · intro s' hs' _
          cases hs'
          simp [normalizeTitle, h]
        · intro hn
          cases hn
      · refine ⟨?_, ?_, ?_, ?_⟩
        · simp only [normalizeTitle, if_neg h]
          exact h
        · intro s' hs' _
          cases hs'
          simp [normalizeTitle, h, hts]
        · intro s' hs' he
          cases hs'
          exact absurd he h
        · intro hn
          cases hn

/-- Claim C9 witness: a padded title is trimmed by the worker's guard,
and a missing title gets the light scraper's placeholder. -/
theorem claim9_witness :
    normTitle (some ("  Big Sale  ")) = jsTrim ("  Big Sale  ") ∧
    normalizeTitle none = "Estate Sale" :=
  ⟨(claim9_title_normalization.1 (some ("  Big Sale  "))).2.1 _ rfl (by decide),
    (claim9_title_normalization.2 none (Or.inl rfl)).2.2.2 rfl⟩

end Claims

end EstateRadar
